import Mathlib

/-!
Shallow embedding of the band-chatbot ingestion and reconciliation scripts
(`src/scripts/ingest_yearly_setlists.py` and `src/scripts/reconcile_setlists.py`).

Pure data manipulation (chunking, response aggregation, set building, report
construction) is embedded as Lean functions; the network is modelled as an
explicit parameter (an endpoint mapping attempt numbers to outcomes, or a
server mapping a requested range to a page of rows).  The paged-fetch loop,
whose termination genuinely depends on the server's behaviour, takes explicit
fuel and returns `Option`.
-/

/-- Constant `DEFAULT_BATCH_SIZE` from `ingest_yearly_setlists.py`. -/
def DEFAULT_BATCH_SIZE : Nat := 250

/-- Constant `MAX_RETRIES` from `ingest_yearly_setlists.py`. -/
def MAX_RETRIES : Nat := 2

/-- Constant `MIN_BATCH_SIZE` from `ingest_yearly_setlists.py`. -/
def MIN_BATCH_SIZE : Nat := 50

/-- Constant `PAGE_SIZE` from `reconcile_setlists.py`; `get_distinct_external_ids`
in `ingest_yearly_setlists.py` uses the same local value `page_size = 10000`. -/
def PAGE_SIZE : Nat := 10000

/-- A JSON scalar value, as far as the scripts inspect one: identifiers can be
strings or numbers (the scripts normalize them with Python `str`). -/
inductive JValue
  | jstr (s : String)
  | jnum (n : Int)
  | jbool (b : Bool)
deriving DecidableEq, Repr

/-- Python `str` applied to a `JValue` (`str(eid)` in both scripts). -/
def pyStr : JValue → String
  | .jstr s => s
  | .jnum n => toString n
  | .jbool b => if b then "True" else "False"

/-- The JSON response of the ingestion edge function, with every field optional:
the scripts read each field with `dict.get` and a default, so missing keys are
representable as `none`. -/
structure IngestResp where
  success : Option Bool
  total_new_records : Option Int
  total_updated_records : Option Int
  results : Option (List JValue)
deriving DecidableEq, Repr

/-- The aggregation of two half-responses in `post_batch_adaptive`
(`ingest_yearly_setlists.py` lines 125-130):
`success` is the conjunction of `res.get("success", False)` of the halves,
the two counters are sums with `get(..., 0)` defaults, and `results` is the
concatenation of `res.get("results") or []`. -/
def agg_result (l r : IngestResp) : IngestResp :=
  { success := some ((l.success.getD false) && (r.success.getD false))
    total_new_records := some (l.total_new_records.getD 0 + r.total_new_records.getD 0)
    total_updated_records :=
      some (l.total_updated_records.getD 0 + r.total_updated_records.getD 0)
    results := some (l.results.getD [] ++ r.results.getD []) }

/-- Error classification of one submission attempt, mirroring the control flow
of `post_batch` (`ingest_yearly_setlists.py` lines 96-107). -/
inductive PBErr
  | unauthorized
  | serverError (status : Nat)
  | httpError (status : Nat)
  | parseError
  | transport
deriving DecidableEq, Repr

/-- Outcome of one HTTP attempt: a response with a status code and (when the
body is well-formed JSON) a parsed `IngestResp`, or a raised exception
(network error / timeout). -/
inductive AttemptOutcome
  | response (status : Nat) (body : Option IngestResp)
  | exception
deriving DecidableEq, Repr

/-- Classification of one attempt inside `post_batch`'s `try` block:
status 401 raises (line 96-97), status >= 500 raises (line 98-99),
`raise_for_status` raises on the remaining 4xx codes (line 100), and a
malformed JSON body makes `resp.json()` raise (line 101).  Every one of these
raises is caught by the enclosing `except Exception` (line 102). -/
def classifyAttempt : AttemptOutcome → Except PBErr IngestResp
  | .exception => .error .transport
  | .response status body =>
    if status = 401 then .error .unauthorized
    else if 500 ≤ status then .error (.serverError status)
    else if 400 ≤ status then .error (.httpError status)
    else
      match body with
      | none => .error .parseError
      | some r => .ok r

deriving instance DecidableEq for Except

/-- The observable outcome of `post_batch`: the returned value or the raised
error, together with how many attempts were made and how many times
`time.sleep` ran. -/
structure PBResult where
  result : Except PBErr IngestResp
  attempts : Nat
  sleeps : Nat
deriving DecidableEq, Repr

/-- The retry loop of `post_batch` (`ingest_yearly_setlists.py` lines 93-107):
`remaining` counts the attempts still allowed after the current one
(`MAX_RETRIES - attempt`); on an error with `remaining > 0` the code sleeps
and retries, otherwise the error propagates. -/
def post_batch_go (ep : Nat → AttemptOutcome) (attempt sleeps remaining : Nat) : PBResult :=
  match classifyAttempt (ep attempt) with
  | .ok r => ⟨.ok r, attempt, sleeps⟩
  | .error e =>
    match remaining with
    | 0 => ⟨.error e, attempt, sleeps⟩
    | r + 1 => post_batch_go ep (attempt + 1) (sleeps + 1) r

/-- `post_batch` of `ingest_yearly_setlists.py`, abstracted over the endpoint's
behaviour per attempt: runs attempts `1 .. MAX_RETRIES`. -/
def post_batch (ep : Nat → AttemptOutcome) : PBResult :=
  post_batch_go ep 1 0 (MAX_RETRIES - 1)

/-- `post_batch_adaptive` (`ingest_yearly_setlists.py` lines 112-131),
abstracted over the behaviour `pb` of `post_batch` on each batch: on failure,
a batch of size at most `MIN_BATCH_SIZE` re-raises, a larger batch is split at
`mid = len(batch) // 2` and both halves are submitted recursively, left first;
the two successful halves are combined with `agg_result`. -/
def post_batch_adaptive (pb : List α → Except ε IngestResp) (batch : List α) :
    Except ε IngestResp :=
  match pb batch with
  | .ok r => .ok r
  | .error e =>
    if batch.length ≤ MIN_BATCH_SIZE then .error e
    else
      match post_batch_adaptive pb (batch.take (batch.length / 2)) with
      | .error e2 => .error e2
      | .ok resLeft =>
        match post_batch_adaptive pb (batch.drop (batch.length / 2)) with
        | .error e2 => .error e2
        | .ok resRight => .ok (agg_result resLeft resRight)
termination_by batch.length
decreasing_by
  · simp only [List.length_take, MIN_BATCH_SIZE] at *; omega
  · simp only [List.length_drop, MIN_BATCH_SIZE] at *; omega

/-- Recursion depth of `post_batch_adaptive`: 0 when no bisection happens,
otherwise one more than the deeper of the two recursive calls. -/
def adaptiveDepth (pb : List α → Except ε IngestResp) (batch : List α) : Nat :=
  match pb batch with
  | .ok _ => 0
  | .error _ =>
    if batch.length ≤ MIN_BATCH_SIZE then 0
    else
      1 + max (adaptiveDepth pb (batch.take (batch.length / 2)))
              (adaptiveDepth pb (batch.drop (batch.length / 2)))
termination_by batch.length
decreasing_by
  · simp only [List.length_take, MIN_BATCH_SIZE] at *; omega
  · simp only [List.length_drop, MIN_BATCH_SIZE] at *; omega

/-- `chunk_list` (`ingest_yearly_setlists.py` lines 70-78): repeatedly slice
off the next `chunk_size` items.  For `chunk_size = 0` the Python loop never
advances (it diverges); the claims only concern `chunk_size >= 1`, where this
equation matches the source loop exactly. -/
def chunk_list (items : List α) (chunkSize : Nat) : List (List α) :=
  if items.isEmpty then []
  else if chunkSize = 0 then []
  else items.take chunkSize :: chunk_list (items.drop chunkSize) chunkSize
termination_by items.length
decreasing_by
  simp only [List.length_drop]
  cases items with
  | nil => simp [List.isEmpty] at *
  | cons a as => simp only [List.length_cons]; omega

/-- One page of a paginated REST read: the JSON array of rows plus the total
parsed from the `Content-Range` header (`none` when the header carries no
parseable total). -/
structure Page (α : Type) where
  data : List α
  total : Option Nat

/-- Result of a completed paged fetch: accumulated rows and the number of
HTTP requests issued. -/
structure FetchResult (α : Type) where
  rows : List α
  requests : Nat
deriving DecidableEq, Repr

/-- The pagination loop shared by `fetch_all_rows` (`reconcile_setlists.py`
lines 78-96) and `get_distinct_external_ids` (`ingest_yearly_setlists.py`
lines 157-181): request the window `[rangeFrom, rangeFrom + pageSize - 1]`,
append its rows, and stop when the page is empty or when the total is known
and `range_to + 1 >= total`; otherwise advance by `pageSize`.  `fuel` bounds
the iterations (the Python loop can genuinely diverge against a server that
keeps returning rows without a total). -/
def fetch_loop (server : Nat → Nat → Page α) (pageSize : Nat) :
    Nat → Nat → List α → Nat → Option (FetchResult α)
  | 0, _, _, _ => none
  | fuel + 1, rangeFrom, acc, reqs =>
    if ((server rangeFrom (rangeFrom + pageSize - 1)).data.isEmpty ||
        (match (server rangeFrom (rangeFrom + pageSize - 1)).total with
          | some t => decide (t ≤ rangeFrom + pageSize - 1 + 1)
          | none => false)) then
      some ⟨acc ++ (server rangeFrom (rangeFrom + pageSize - 1)).data, reqs + 1⟩
    else
      fetch_loop server pageSize fuel (rangeFrom + pageSize)
        (acc ++ (server rangeFrom (rangeFrom + pageSize - 1)).data) (reqs + 1)

/-- `fetch_all_rows` of `reconcile_setlists.py`: the pagination loop started
at cursor 0 with window size `PAGE_SIZE`. -/
def fetch_all_rows (server : Nat → Nat → Page α) (fuel : Nat) :
    Option (FetchResult α) :=
  fetch_loop server PAGE_SIZE fuel 0 [] 0

/-- A conforming REST server backed by a fixed list of rows: the window
`[f, t]` returns `rows[f..t]` (inclusive), and the `Content-Range` total is
the collection size when `reportTotal` is set, absent otherwise. -/
def listServer (rows : List α) (reportTotal : Bool) : Nat → Nat → Page α :=
  fun rangeFrom rangeTo =>
    ⟨(rows.drop rangeFrom).take (rangeTo + 1 - rangeFrom),
     if reportTotal then some rows.length else none⟩

/-- A row of the distinct-id read in `get_distinct_external_ids`: only the
(possibly absent) `external_id` field is inspected. -/
structure IdRow where
  external_id : Option JValue

/-- The loop body of the row pass in `get_distinct_external_ids`
(`ingest_yearly_setlists.py` lines 164-167): a row whose `external_id` is
`None` is skipped, a present identifier is added as `str(eid)`. -/
def id_step (ids : Finset String) (r : IdRow) : Finset String :=
  match r.external_id with
  | none => ids
  | some v => insert (pyStr v) ids

/-- The per-page accumulation of `get_distinct_external_ids`
(`ingest_yearly_setlists.py` lines 164-167). -/
def add_external_ids (ids : Finset String) (rows : List IdRow) : Finset String :=
  rows.foldl id_step ids

/-- The nested `data` object of a bronze row, as far as
`bronze_ids_by_year` inspects it: an optional `showdate` string. -/
structure RawPayload where
  showdate : Option String

/-- A row of the bronze read in `reconcile_setlists.py`: optional
`external_id` and an optional `data` payload (`r.get("data") or {}`). -/
structure RawRow where
  external_id : Option JValue
  data : Option RawPayload

/-- The loop body of `bronze_ids_by_year` (`reconcile_setlists.py` lines
103-115): take `data` (defaulting to `{}`), skip rows without a `showdate` of
at least 4 characters, parse the year from the first 4 characters (skip on
parse failure), and for matching years add `str(external_id)` when the
identifier is present. -/
def bronze_step (year : Int) (ids : Finset String) (r : RawRow) : Finset String :=
  match (r.data.getD ⟨none⟩).showdate with
  | none => ids
  | some sd =>
    if sd.length < 4 then ids
    else
      match (sd.take 4).toInt? with
      | none => ids
      | some y =>
        if y = year then
          match r.external_id with
          | none => ids
          | some v => insert (pyStr v) ids
        else ids

/-- `bronze_ids_by_year` of `reconcile_setlists.py` (lines 100-116), applied
to the already-fetched rows. -/
def bronze_ids_by_year (rows : List RawRow) (year : Int) : Finset String :=
  rows.foldl (bronze_step year) ∅

/-- The condition under which a bronze row's year matches in
`bronze_ids_by_year`: a `showdate` of length at least 4 whose first 4
characters parse to the requested year. -/
def bronzeMatches (r : RawRow) (year : Int) : Prop :=
  ∃ sd, (r.data.getD ⟨none⟩).showdate = some sd ∧ 4 ≤ sd.length ∧
    (sd.take 4).toInt? = some year

/-- One year's entry of the reconciliation report
(`reconcile_setlists.py` lines 156-164). -/
structure ReportEntry where
  json_count : Nat
  bronze_count : Nat
  silver_count : Nat
  json_minus_bronze : List String
  bronze_minus_json : List String
  bronze_minus_silver : List String
  silver_minus_bronze : List String
deriving DecidableEq, Repr

/-- Construction of one year's report entry from the three id sets
(`reconcile_setlists.py` lines 156-164): exact cardinalities, and each
directional difference rendered as `sorted(list(a - b))[:50]`. -/
def report_entry (jsonIds bronzeIds silverIds : Finset String) : ReportEntry :=
  { json_count := jsonIds.card
    bronze_count := bronzeIds.card
    silver_count := silverIds.card
    json_minus_bronze := ((jsonIds \ bronzeIds).sort (· ≤ ·)).take 50
    bronze_minus_json := ((bronzeIds \ jsonIds).sort (· ≤ ·)).take 50
    bronze_minus_silver := ((bronzeIds \ silverIds).sort (· ≤ ·)).take 50
    silver_minus_bronze := ((silverIds \ bronzeIds).sort (· ≤ ·)).take 50 }

/-- A bounded, lexicographically sorted sample of the difference `a - b`:
the property the report's diff lists are claimed to satisfy. -/
def boundedSortedSample (l : List String) (a b : Finset String) : Prop :=
  List.Sorted (· ≤ ·) l ∧ l.length ≤ 50 ∧ ∀ x ∈ l, x ∈ a ∧ x ∉ b

/-- An endpoint that answers 401 on every attempt. -/
def ep401 : Nat → AttemptOutcome := fun _ => .response 401 none

/-- `post_batch` against the always-401 endpoint, as the submission function
seen by `post_batch_adaptive` (the batch does not influence the outcome). -/
def pb401 : List Nat → Except PBErr IngestResp := fun _ => (post_batch ep401).result

/-- A submission function that fails on every batch with a transport error. -/
def pbAlwaysFail : List Nat → Except PBErr IngestResp := fun _ => .error .transport

/-! ### Helper lemmas about `chunk_list` -/

theorem chunk_list_nil (B : Nat) : chunk_list ([] : List α) B = [] := by
  rw [chunk_list]; simp

theorem chunk_list_cons (a : α) (as : List α) (B : Nat) (hB : 1 ≤ B) :
    chunk_list (a :: as) B =
      (a :: as).take B :: chunk_list ((a :: as).drop B) B := by
  rw [chunk_list]
  have hB0 : ¬ B = 0 := by omega
  simp [hB0]

theorem chunk_list_flatten (B : Nat) (hB : 1 ≤ B) :
    ∀ (n : Nat) (l : List α), l.length ≤ n → (chunk_list l B).flatten = l := by
  intro n
  induction n with
  | zero =>
    intro l hl
    cases l with
    | nil => simp [chunk_list_nil]
    | cons a as => simp at hl
  | succ n ih =>
    intro l hl
    cases l with
    | nil => simp [chunk_list_nil]
    | cons a as =>
      rw [chunk_list_cons a as B hB]
      rw [List.flatten_cons]
      rw [ih ((a :: as).drop B) (by simp only [List.length_drop, List.length_cons] at hl ⊢; omega)]
      exact List.take_append_drop B (a :: as)

theorem chunk_list_count (B : Nat) (hB : 1 ≤ B) :
    ∀ (n : Nat) (l : List α), l.length ≤ n →
      (chunk_list l B).length = (l.length + B - 1) / B := by
  intro n
  induction n with
  | zero =>
    intro l hl
    cases l with
    | nil =>
      simp only [chunk_list_nil, List.length_nil, Nat.zero_add]
      rw [Nat.div_eq_of_lt (by omega)]
    | cons a as => simp at hl
  | succ n ih =>
    intro l hl
    cases l with
    | nil =>
      simp only [chunk_list_nil, List.length_nil, Nat.zero_add]
      rw [Nat.div_eq_of_lt (by omega)]
    | cons a as =>
      rw [chunk_list_cons a as B hB]
      rw [List.length_cons]
      rw [ih ((a :: as).drop B) (by simp only [List.length_drop, List.length_cons] at hl ⊢; omega)]
      have hlen : (a :: as).length = as.length + 1 := rfl
      have hrw : (a :: as).length + B - 1 = ((a :: as).length - 1) + B := by omega
      rw [hrw, Nat.add_div_right _ (by omega : 0 < B)]
      rcases le_or_lt (a :: as).length B with hle | hlt
      · have h1 : ((a :: as).drop B).length = 0 := by
          simp [List.length_drop]; omega
        rw [h1]
        have h2 : (0 + B - 1) / B = 0 := Nat.div_eq_of_lt (by omega)
        have h3 : ((a :: as).length - 1) / B = 0 := Nat.div_eq_of_lt (by omega)
        rw [h2, h3]
      · have h1 : ((a :: as).drop B).length = (a :: as).length - B := by
          simp [List.length_drop]
        rw [h1]
        have h2 : (a :: as).length - B + B - 1 = ((a :: as).length - 1 - B) + B := by omega
        rw [h2, Nat.add_div_right _ (by omega : 0 < B)]
        have h3 : (a :: as).length - 1 = ((a :: as).length - 1 - B) + B := by omega
        rw [h3, Nat.add_div_right _ (by omega : 0 < B)]
        have h4 : (a :: as).length - 1 - B + B - B = (a :: as).length - 1 - B := by omega
        rw [h4]

theorem chunk_list_sizes (B : Nat) (hB : 1 ≤ B) :
    ∀ (n : Nat) (l : List α), l.length ≤ n →
      ∀ c ∈ chunk_list l B, c.length ≤ B := by
  intro n
  induction n with
  | zero =>
    intro l hl c hc
    cases l with
    | nil => simp [chunk_list_nil] at hc
    | cons a as => simp at hl
  | succ n ih =>
    intro l hl c hc
    cases l with
    | nil => simp [chunk_list_nil] at hc
    | cons a as =>
      rw [chunk_list_cons a as B hB] at hc
      rcases List.mem_cons.mp hc with h | h
      · subst h; exact List.length_take_le B (a :: as)
      · exact ih ((a :: as).drop B) (by simp only [List.length_drop, List.length_cons] at hl ⊢; omega) c h

theorem chunk_list_full_blocks (B : Nat) (hB : 1 ≤ B) :
    ∀ (n : Nat) (l : List α), l.length ≤ n →
      ∀ i, i + 1 < (chunk_list l B).length →
        ((chunk_list l B).getD i []).length = B := by
  intro n
  induction n with
  | zero =>
    intro l hl i hi
    cases l with
    | nil => simp [chunk_list_nil] at hi
    | cons a as => simp at hl
  | succ n ih =>
    intro l hl i hi
    cases l with
    | nil => simp [chunk_list_nil] at hi
    | cons a as =>
      rw [chunk_list_cons a as B hB] at hi ⊢
      cases i with
      | zero =>
        have hrest : 1 ≤ (chunk_list ((a :: as).drop B) B).length := by
          simp only [List.length_cons] at hi
          omega
        have hne : (a :: as).drop B ≠ [] := by
          intro hcontra
          rw [hcontra, chunk_list_nil] at hrest
          simp at hrest
        have hlen : B < (a :: as).length := by
          by_contra hcontra
          exact hne (List.drop_eq_nil_of_le (by omega))
        simp only [List.getD_cons_zero, List.length_take]
        omega
      | succ i =>
        simp only [List.getD_cons_succ]
        apply ih ((a :: as).drop B) (by simp only [List.length_drop, List.length_cons] at hl ⊢; omega)
        simp only [List.length_cons] at hi
        omega

/-- C4: for every record list and batch size `B >= 1`, `chunk_list` produces
contiguous, order-preserving batches whose concatenation is the original list,
each of length at most `B`, with every batch but possibly the last of length
exactly `B`, and the number of batches is `ceil(N / B) = (N + B - 1) / B`. -/
theorem c4_chunk_list_partition (items : List α) (B : Nat) (hB : 1 ≤ B) :
    (chunk_list items B).flatten = items ∧
    (chunk_list items B).length = (items.length + B - 1) / B ∧
    (∀ c ∈ chunk_list items B, c.length ≤ B) ∧
    (∀ i, i + 1 < (chunk_list items B).length →
      ((chunk_list items B).getD i []).length = B) := by
  refine ⟨?_, ?_, ?_, ?_⟩
  · exact chunk_list_flatten B hB items.length items le_rfl
  · exact chunk_list_count B hB items.length items le_rfl
  · exact chunk_list_sizes B hB items.length items le_rfl
  · exact chunk_list_full_blocks B hB items.length items le_rfl

/-- Witness for C4 at `items = [0, 1, 2]`, `B = 2`. -/
theorem c4_chunk_list_partition_witness :
    1 ≤ 2 ∧ (chunk_list [0, 1, 2] 2).flatten = [0, 1, 2] ∧
      (chunk_list [0, 1, 2] 2).length = (3 + 2 - 1) / 2 :=
  ⟨by decide, (c4_chunk_list_partition [0, 1, 2] 2 (by decide)).1,
    (c4_chunk_list_partition [0, 1, 2] 2 (by decide)).2.1⟩

/-! ### Helper lemmas about `post_batch_adaptive` and `adaptiveDepth` -/

theorem post_batch_adaptive_ok (pb : List α → Except ε IngestResp)
    (batch : List α) (r : IngestResp) (hok : pb batch = .ok r) :
    post_batch_adaptive pb batch = .ok r := by
  rw [post_batch_adaptive.eq_def, hok]

theorem adaptiveDepth_small (pb : List α → Except ε IngestResp) (batch : List α)
    (h : batch.length ≤ MIN_BATCH_SIZE) : adaptiveDepth pb batch = 0 := by
  rw [adaptiveDepth.eq_def]
  cases pb batch with
  | ok r => rfl
  | error e => simp [h]

theorem adaptiveDepth_split (pb : List α → Except ε IngestResp) (batch : List α)
    (e : ε) (hfail : pb batch = .error e) (hbig : MIN_BATCH_SIZE < batch.length) :
    adaptiveDepth pb batch =
      1 + max (adaptiveDepth pb (batch.take (batch.length / 2)))
              (adaptiveDepth pb (batch.drop (batch.length / 2))) := by
  rw [adaptiveDepth.eq_def]
  simp [hfail, Nat.not_le.mpr hbig]

theorem adaptiveDepth_le (pb : List α → Except ε IngestResp) :
    ∀ (k : Nat) (batch : List α), batch.length ≤ MIN_BATCH_SIZE * 2 ^ k →
      adaptiveDepth pb batch ≤ k := by
  intro k
  induction k with
  | zero =>
    intro batch hlen
    have h : batch.length ≤ MIN_BATCH_SIZE := by simpa using hlen
    rw [adaptiveDepth_small pb batch h]
  | succ k ih =>
    intro batch hlen
    rw [adaptiveDepth.eq_def]
    cases hpb : pb batch with
    | ok r => simp
    | error e =>
      by_cases hsm : batch.length ≤ MIN_BATCH_SIZE
      · simp [hsm]
      · simp only [hsm, if_false]
        have hpow : (2 : Nat) ^ (k + 1) = 2 ^ k * 2 := pow_succ 2 k
        have hL : adaptiveDepth pb (batch.take (batch.length / 2)) ≤ k := by
          apply ih
          rw [hpow] at hlen
          simp only [List.length_take, MIN_BATCH_SIZE] at *
          omega
        have hR : adaptiveDepth pb (batch.drop (batch.length / 2)) ≤ k := by
          apply ih
          rw [hpow] at hlen
          simp only [List.length_drop, MIN_BATCH_SIZE] at *
          omega
        omega

/-- C6: a batch of size at most `MIN_BATCH_SIZE` whose submission fails is
not split further: `post_batch_adaptive` re-raises the same failure to its
caller. -/
theorem c6_small_batch_failure_reraised (pb : List α → Except ε IngestResp)
    (batch : List α) (e : ε) (hsmall : batch.length ≤ MIN_BATCH_SIZE)
    (hfail : pb batch = .error e) :
    post_batch_adaptive pb batch = .error e := by
  rw [post_batch_adaptive.eq_def]
  simp [hfail, hsmall]

/-- Witness for C6: a 50-record batch against an always-failing submission. -/
theorem c6_small_batch_failure_reraised_witness :
    (List.replicate 50 (0 : Nat)).length ≤ MIN_BATCH_SIZE ∧
    post_batch_adaptive pbAlwaysFail (List.replicate 50 (0 : Nat)) =
      .error .transport :=
  ⟨by decide,
    c6_small_batch_failure_reraised pbAlwaysFail (List.replicate 50 (0 : Nat))
      PBErr.transport (by decide) rfl⟩

/-- C5: a failing batch larger than `MIN_BATCH_SIZE` is split at its midpoint
into two halves whose concatenation is the original batch, both halves are
submitted recursively (left first, a left failure short-circuiting), and the
two successful outcomes are combined by `agg_result`: conjunction of
`success`, sums of the two counters, and left-then-right concatenation of
`results`. -/
theorem c5_bisection_combination (pb : List α → Except ε IngestResp)
    (batch : List α) (e : ε) (hbig : MIN_BATCH_SIZE < batch.length)
    (hfail : pb batch = .error e) :
    batch.take (batch.length / 2) ++ batch.drop (batch.length / 2) = batch ∧
    post_batch_adaptive pb batch =
      (post_batch_adaptive pb (batch.take (batch.length / 2))).bind
        (fun resLeft =>
          (post_batch_adaptive pb (batch.drop (batch.length / 2))).map
            (fun resRight => agg_result resLeft resRight)) ∧
    (∀ l r : IngestResp,
      (agg_result l r).success =
        some ((l.success.getD false) && (r.success.getD false)) ∧
      (agg_result l r).total_new_records =
        some (l.total_new_records.getD 0 + r.total_new_records.getD 0) ∧
      (agg_result l r).total_updated_records =
        some (l.total_updated_records.getD 0 + r.total_updated_records.getD 0) ∧
      (agg_result l r).results = some (l.results.getD [] ++ r.results.getD [])) := by
  refine ⟨List.take_append_drop _ _, ?_, fun l r => ⟨rfl, rfl, rfl, rfl⟩⟩
  rw [post_batch_adaptive.eq_def]
  simp only [hfail, Nat.not_le.mpr hbig, if_false]
  cases hL : post_batch_adaptive pb (batch.take (batch.length / 2)) with
  | error e2 => rfl
  | ok resLeft =>
    cases hR : post_batch_adaptive pb (batch.drop (batch.length / 2)) with
    | error e2 => rfl
    | ok resRight => rfl

/-- Witness for C5: a 51-record batch against an always-failing submission. -/
theorem c5_bisection_combination_witness :
    MIN_BATCH_SIZE < (List.replicate 51 (0 : Nat)).length ∧
    (List.replicate 51 (0 : Nat)).take ((List.replicate 51 (0 : Nat)).length / 2) ++
      (List.replicate 51 (0 : Nat)).drop ((List.replicate 51 (0 : Nat)).length / 2) =
      List.replicate 51 (0 : Nat) :=
  ⟨by decide,
    (c5_bisection_combination pbAlwaysFail (List.replicate 51 (0 : Nat))
      PBErr.transport (by decide) rfl).1⟩

/-- C8: `post_batch_adaptive` terminates (it is a total function of the
embedding, by well-founded recursion on the batch length), and its recursion
depth is bounded by the base-2 ceiling logarithm of
`ceil(initialBatchSize / MIN_BATCH_SIZE)`: each split halves the batch and
recursion stops at `MIN_BATCH_SIZE`. -/
theorem c8_adaptive_depth_bound (pb : List α → Except ε IngestResp)
    (batch : List α) :
    adaptiveDepth pb batch ≤
      Nat.clog 2 ((batch.length + MIN_BATCH_SIZE - 1) / MIN_BATCH_SIZE) := by
  apply adaptiveDepth_le
  have h1 : (batch.length + MIN_BATCH_SIZE - 1) / MIN_BATCH_SIZE ≤
      2 ^ Nat.clog 2 ((batch.length + MIN_BATCH_SIZE - 1) / MIN_BATCH_SIZE) :=
    Nat.le_pow_clog (by omega) _
  have h2 : batch.length ≤
      MIN_BATCH_SIZE * ((batch.length + MIN_BATCH_SIZE - 1) / MIN_BATCH_SIZE) := by
    simp only [MIN_BATCH_SIZE]
    omega
  calc batch.length
      ≤ MIN_BATCH_SIZE * ((batch.length + MIN_BATCH_SIZE - 1) / MIN_BATCH_SIZE) := h2
    _ ≤ MIN_BATCH_SIZE *
        2 ^ Nat.clog 2 ((batch.length + MIN_BATCH_SIZE - 1) / MIN_BATCH_SIZE) :=
        Nat.mul_le_mul_left _ h1

/-- C10: the aggregation of two half-responses is total over responses with
missing fields: a missing `success` in either half makes the combined
`success` false, missing counters default to 0, and missing `results`
default to the empty sequence. -/
theorem c10_aggregation_missing_fields (l r : IngestResp) :
    (agg_result l r).success =
      some ((l.success.getD false) && (r.success.getD false)) ∧
    (l.success = none → (agg_result l r).success = some false) ∧
    (r.success = none → (agg_result l r).success = some false) ∧
    (agg_result l r).total_new_records =
      some (l.total_new_records.getD 0 + r.total_new_records.getD 0) ∧
    (l.total_new_records = none →
      (agg_result l r).total_new_records = some (r.total_new_records.getD 0)) ∧
    (agg_result l r).total_updated_records =
      some (l.total_updated_records.getD 0 + r.total_updated_records.getD 0) ∧
    (l.total_updated_records = none →
      (agg_result l r).total_updated_records =
        some (r.total_updated_records.getD 0)) ∧
    (agg_result l r).results = some (l.results.getD [] ++ r.results.getD []) ∧
    (l.results = none → (agg_result l r).results = some (r.results.getD [])) := by
  refine ⟨rfl, ?_, ?_, rfl, ?_, rfl, ?_, rfl, ?_⟩ <;>
    intro h <;> simp [agg_result, h]

/-- Witness for C10: a left half missing every field. -/
theorem c10_aggregation_missing_fields_witness :
    (IngestResp.mk none none none none).success = none ∧
    (agg_result (IngestResp.mk none none none none)
      (IngestResp.mk (some true) (some 3) (some 4) (some []))).success =
      some false :=
  ⟨rfl,
    (c10_aggregation_missing_fields (IngestResp.mk none none none none)
      (IngestResp.mk (some true) (some 3) (some 4) (some []))).2.1 rfl⟩

/-- C1 counterexample: against an endpoint answering 401 on every attempt,
`post_batch` makes a second attempt after the first 401 and sleeps once
(the `RuntimeError` raised for 401 is caught by the generic `except` and
retried), and a 51-record batch then undergoes bisection
(`adaptiveDepth = 1`), contradicting that a 401 is terminal, never retried,
never slept on, and never bisected. -/
theorem c1_counterexample_401_is_retried :
    post_batch ep401 = ⟨.error .unauthorized, 2, 1⟩ ∧
    (post_batch ep401).attempts ≠ 1 ∧
    (post_batch ep401).sleeps ≠ 0 ∧
    adaptiveDepth pb401 (List.replicate 51 (0 : Nat)) = 1 := by
  refine ⟨rfl, by decide, by decide, ?_⟩
  rw [adaptiveDepth_split pb401 (List.replicate 51 (0 : Nat)) PBErr.unauthorized rfl
    (by decide)]
  rw [adaptiveDepth_small pb401
    ((List.replicate 51 (0 : Nat)).take ((List.replicate 51 (0 : Nat)).length / 2))
    (by decide)]
  rw [adaptiveDepth_small pb401
    ((List.replicate 51 (0 : Nat)).drop ((List.replicate 51 (0 : Nat)).length / 2))
    (by decide)]
  decide

/-- C1 amended: a 401 response raises an auth error inside `post_batch`'s
`try` block, but the raise is caught by the generic handler and treated like
any other failure: with a 401 on both attempts the loop performs
`MAX_RETRIES` attempts with `MAX_RETRIES - 1` sleeps between them and only
then surfaces the auth error, and a failing batch larger than
`MIN_BATCH_SIZE` then undergoes bisection. -/
theorem c1_auth_error_retried_then_bisected (ep : Nat → AttemptOutcome)
    (h1 : classifyAttempt (ep 1) = .error .unauthorized)
    (h2 : classifyAttempt (ep 2) = .error .unauthorized) :
    post_batch ep = ⟨.error .unauthorized, MAX_RETRIES, MAX_RETRIES - 1⟩ ∧
    (∀ (pb : List Nat → Except PBErr IngestResp) (batch : List Nat),
      pb batch = .error .unauthorized → MIN_BATCH_SIZE < batch.length →
      1 ≤ adaptiveDepth pb batch) := by
  constructor
  · show post_batch_go ep 1 0 (MAX_RETRIES - 1) = _
    rw [show MAX_RETRIES - 1 = 1 from rfl]
    rw [post_batch_go.eq_def, h1]
    simp only []
    rw [post_batch_go.eq_def, h2]
    rfl
  · intro pb batch hf hb
    rw [adaptiveDepth_split pb batch PBErr.unauthorized hf hb]
    omega

/-- Witness for the amended C1 at the always-401 endpoint. -/
theorem c1_auth_error_retried_then_bisected_witness :
    classifyAttempt (ep401 1) = .error .unauthorized ∧
    post_batch ep401 = ⟨.error .unauthorized, MAX_RETRIES, MAX_RETRIES - 1⟩ :=
  ⟨rfl, (c1_auth_error_retried_then_bisected ep401 rfl rfl).1⟩


/-! ### Helper lemmas about the pagination loop against a list-backed server -/

theorem fetch_loop_with_total (rows : List α) (P : Nat) (hP : 1 ≤ P) :
    ∀ (fuel rangeFrom : Nat) (acc : List α) (reqs : Nat),
      (rows.length - rangeFrom) / P + 1 ≤ fuel →
      fetch_loop (listServer rows true) P fuel rangeFrom acc reqs =
        some ⟨acc ++ rows.drop rangeFrom,
              reqs + max 1 ((rows.length - rangeFrom + P - 1) / P)⟩ := by
  intro fuel
  induction fuel with
  | zero => intro f acc reqs h; exact absurd h (Nat.not_succ_le_zero _)
  | succ fuel ih =>
    intro f acc reqs hfuel
    rw [fetch_loop]
    simp only [listServer, if_true]
    have hT : f + P - 1 + 1 - f = P := by omega
    have hT2 : f + P - 1 + 1 = f + P := by omega
    rw [hT, hT2]
    rcases le_or_lt rows.length f with hend | hmid
    · have hdrop : rows.drop f = [] := List.drop_eq_nil_of_le hend
      have h9 : (rows.length - f + P - 1) / P = 0 := by
        have h0 : rows.length - f = 0 := by omega
        rw [h0]; exact Nat.div_eq_of_lt (by omega)
      rw [hdrop, h9]
      simp
    · have hdropne : rows.drop f ≠ [] := by
        intro hcontra
        have hcl := congrArg List.length hcontra
        rw [List.length_drop] at hcl
        simp at hcl
        omega
      have hne : ((rows.drop f).take P).isEmpty = false := by
        simp only [List.isEmpty_eq_false, ne_eq, List.take_eq_nil_iff, not_or]
        exact ⟨by omega, hdropne⟩
      rcases le_or_lt rows.length (f + P) with hstop | hgo
      · have hcond : (((rows.drop f).take P).isEmpty ||
            decide (rows.length ≤ f + P)) = true := by
          rw [hne]; simp [hstop]
        rw [if_pos hcond]
        have htake : (rows.drop f).take P = rows.drop f :=
          List.take_of_length_le (by rw [List.length_drop]; omega)
        have hreq : (rows.length - f + P - 1) / P = 1 :=
          Nat.div_eq_of_lt_le (by omega) (by omega)
        rw [htake, hreq]
        simp
      · have hcond : (((rows.drop f).take P).isEmpty ||
            decide (rows.length ≤ f + P)) = false := by
          rw [hne]; simp; omega
        rw [if_neg (by rw [hcond]; exact Bool.false_ne_true)]
        have hbound : (rows.length - (f + P)) / P + 1 ≤ fuel := by
          have e0 : rows.length - f = (rows.length - f - P) + P := by omega
          rw [e0, Nat.add_div_right _ (show 0 < P by omega)] at hfuel
          have e3 : rows.length - (f + P) = rows.length - f - P := by omega
          rw [e3]
          omega
        rw [ih (f + P) (acc ++ (rows.drop f).take P) (reqs + 1) hbound]
        simp only [Option.some.injEq, FetchResult.mk.injEq]
        constructor
        · rw [List.append_assoc]
          congr 1
          rw [show rows.drop (f + P) = List.drop P (rows.drop f) from
            (List.drop_drop P f rows).symm]
          exact List.take_append_drop P (rows.drop f)
        · have e1 : rows.length - (f + P) + P - 1 = rows.length - f - 1 := by omega
          have e2 : rows.length - f + P - 1 = rows.length - f - 1 + P := by omega
          rw [e1, e2, Nat.add_div_right _ (show 0 < P by omega)]
          have hq : 1 ≤ (rows.length - f - 1) / P :=
            (Nat.one_le_div_iff (by omega)).mpr (by omega)
          rw [Nat.max_eq_right hq,
            Nat.max_eq_right (by omega : (1 : Nat) ≤ (rows.length - f - 1) / P + 1)]
          omega

theorem fetch_loop_no_total (rows : List α) (P : Nat) (hP : 1 ≤ P) :
    ∀ (fuel rangeFrom : Nat) (acc : List α) (reqs : Nat),
      (rows.length - rangeFrom + P - 1) / P + 2 ≤ fuel →
      fetch_loop (listServer rows false) P fuel rangeFrom acc reqs =
        some ⟨acc ++ rows.drop rangeFrom,
              reqs + (rows.length - rangeFrom + 2 * P - 1) / P⟩ := by
  intro fuel
  induction fuel with
  | zero => intro f acc reqs h; exact absurd h (Nat.not_succ_le_zero _)
  | succ fuel ih =>
    intro f acc reqs hfuel
    rw [fetch_loop]
    simp only [listServer, if_false]
    have hT : f + P - 1 + 1 - f = P := by omega
    rw [hT]
    rcases le_or_lt rows.length f with hend | hmid
    · have hdrop : rows.drop f = [] := List.drop_eq_nil_of_le hend
      have h9 : (rows.length - f + 2 * P - 1) / P = 1 := by
        have h0 : rows.length - f = 0 := by omega
        rw [h0]
        exact Nat.div_eq_of_lt_le (by omega) (by omega)
      rw [hdrop, h9]
      simp
    · have hdropne : rows.drop f ≠ [] := by
        intro hcontra
        have hcl := congrArg List.length hcontra
        rw [List.length_drop] at hcl
        simp at hcl
        omega
      have hne : ((rows.drop f).take P).isEmpty = false := by
        simp only [List.isEmpty_eq_false, ne_eq, List.take_eq_nil_iff, not_or]
        exact ⟨by omega, hdropne⟩
      rw [if_neg (by rw [hne, Bool.false_or]; exact Bool.false_ne_true)]
      have hbound : (rows.length - (f + P) + P - 1) / P + 2 ≤ fuel := by
        rcases le_or_lt (rows.length - f) P with hle | hgt
        · have e0 : rows.length - (f + P) = 0 := by omega
          rw [e0]
          have e1 : (0 + P - 1) / P = 0 := Nat.div_eq_of_lt (by omega)
          rw [e1]
          have hq : 1 ≤ (rows.length - f + P - 1) / P :=
            (Nat.one_le_div_iff (by omega)).mpr (by omega)
          omega
        · have e0 : rows.length - (f + P) + P - 1 = rows.length - f - 1 := by omega
          have e1 : rows.length - f + P - 1 = rows.length - f - 1 + P := by omega
          rw [e0]
          rw [e1, Nat.add_div_right _ (show 0 < P by omega)] at hfuel
          omega
      rw [ih (f + P) (acc ++ (rows.drop f).take P) (reqs + 1) hbound]
      simp only [Option.some.injEq, FetchResult.mk.injEq]
      constructor
      · rw [List.append_assoc]
        congr 1
        rw [show rows.drop (f + P) = List.drop P (rows.drop f) from
          (List.drop_drop P f rows).symm]
        exact List.take_append_drop P (rows.drop f)
      · rcases le_or_lt (rows.length - f) P with hle | hgt
        · have e0 : rows.length - (f + P) = 0 := by omega
          rw [e0]
          have e1 : (0 + 2 * P - 1) / P = 1 :=
            Nat.div_eq_of_lt_le (by omega) (by omega)
          have e2 : (rows.length - f + 2 * P - 1) / P = 2 :=
            Nat.div_eq_of_lt_le (by omega) (by omega)
          rw [e1, e2]
        · have e0 : rows.length - (f + P) + 2 * P - 1 = rows.length - f - 1 + P := by
            omega
          have e1 : rows.length - f + 2 * P - 1 = rows.length - f - 1 + P + P := by
            omega
          have d1 : (rows.length - f - 1 + P) / P = (rows.length - f - 1) / P + 1 :=
            Nat.add_div_right _ (by omega)
          have d2 : (rows.length - f - 1 + P + P) / P =
              (rows.length - f - 1 + P) / P + 1 :=
            Nat.add_div_right _ (by omega)
          rw [e0, e1, d2, d1]
          omega

/-- C3: against a server that pages a collection of rows in fixed-size
windows and correctly reports the total, `fetch_all_rows` terminates and
returns exactly the original rows (no duplicate, no omission, order
preserved), issuing `max 1 (ceil(N / PAGE_SIZE))` requests: it stops exactly
when a page is empty or when `from + PAGE_SIZE >= total` after accumulating
the just-fetched page. -/
theorem c3_fetch_all_rows_complete (rows : List α) :
    fetch_all_rows (listServer rows true) (rows.length + 2) =
      some ⟨rows, max 1 ((rows.length + PAGE_SIZE - 1) / PAGE_SIZE)⟩ := by
  have hb : (rows.length - 0) / PAGE_SIZE + 1 ≤ rows.length + 2 := by
    simp only [PAGE_SIZE]; omega
  have h := fetch_loop_with_total rows PAGE_SIZE (by norm_num [PAGE_SIZE])
    (rows.length + 2) 0 [] 0 hb
  unfold fetch_all_rows
  rw [h]
  simp

/-- C2 counterexample: a server holding a single row and never reporting a
total serves a first page of 1 row, far fewer than `PAGE_SIZE = 10000`, yet
the loop does not stop there: it issues a second request (whose empty page
ends it), so the fetch makes 2 requests where the claim predicts 1. -/
theorem c2_counterexample_short_page_does_not_stop :
    fetch_all_rows (listServer ["a"] false) 3 =
      some ⟨["a"], 2⟩ ∧ (2 : Nat) ≠ 1 :=
  ⟨by rfl, by decide⟩

/-- C2 amended: if the server never reports a total, `fetch_all_rows`
terminates, but only after the first *empty* page; a non-empty page shorter
than `PAGE_SIZE` does not end the loop.  It returns all rows and issues
`(N + 2 * PAGE_SIZE - 1) / PAGE_SIZE` requests - one more request than the
number of non-empty pages (the final request fetches the terminating empty
page). -/
theorem c2_no_total_stops_only_on_empty_page (rows : List α) :
    fetch_all_rows (listServer rows false) (rows.length + 2) =
      some ⟨rows, (rows.length + 2 * PAGE_SIZE - 1) / PAGE_SIZE⟩ := by
  have hb : (rows.length - 0 + PAGE_SIZE - 1) / PAGE_SIZE + 2 ≤ rows.length + 2 := by
    simp only [PAGE_SIZE]; omega
  have h := fetch_loop_no_total rows PAGE_SIZE (by norm_num [PAGE_SIZE])
    (rows.length + 2) 0 [] 0 hb
  unfold fetch_all_rows
  rw [h]
  simp

/-! ### Helper lemmas about id-set construction -/

theorem mem_id_step (ids : Finset String) (r : IdRow) (s : String) :
    s ∈ id_step ids r ↔
      s ∈ ids ∨ ∃ v, r.external_id = some v ∧ s = pyStr v := by
  cases hr : r.external_id with
  | none => simp [id_step, hr]
  | some v =>
    simp [id_step, hr, Finset.mem_insert]
    tauto

theorem mem_add_external_ids (rows : List IdRow) :
    ∀ (ids : Finset String) (s : String),
      s ∈ add_external_ids ids rows ↔
        s ∈ ids ∨ ∃ r ∈ rows, ∃ v, r.external_id = some v ∧ s = pyStr v := by
  induction rows with
  | nil => intro ids s; simp [add_external_ids]
  | cons r rows ih =>
    intro ids s
    unfold add_external_ids at ih ⊢
    rw [List.foldl_cons, ih, mem_id_step]
    constructor
    · rintro ((hids | ⟨v, hv, hs⟩) | ⟨r2, hr2, hex⟩)
      · exact Or.inl hids
      · exact Or.inr ⟨r, List.mem_cons_self r rows, v, hv, hs⟩
      · exact Or.inr ⟨r2, List.mem_cons_of_mem r hr2, hex⟩
    · rintro (hids | ⟨r2, hr2, hex⟩)
      · exact Or.inl (Or.inl hids)
      · rcases List.mem_cons.mp hr2 with heq | hmem
        · subst heq; exact Or.inl (Or.inr hex)
        · exact Or.inr ⟨r2, hmem, hex⟩

theorem bronze_step_no_date (year : Int) (ids : Finset String) (r : RawRow)
    (hd : (r.data.getD ⟨none⟩).showdate = none) : bronze_step year ids r = ids := by
  unfold bronze_step
  rw [hd]

theorem bronze_step_short (year : Int) (ids : Finset String) (r : RawRow)
    (sd : String) (hd : (r.data.getD ⟨none⟩).showdate = some sd)
    (hlen : sd.length < 4) : bronze_step year ids r = ids := by
  unfold bronze_step
  rw [hd]
  simp [hlen]

theorem bronze_step_bad_parse (year : Int) (ids : Finset String) (r : RawRow)
    (sd : String) (hd : (r.data.getD ⟨none⟩).showdate = some sd)
    (hlen : ¬ sd.length < 4) (hy : (sd.take 4).toInt? = none) :
    bronze_step year ids r = ids := by
  unfold bronze_step
  rw [hd]
  simp [hlen, hy]

theorem bronze_step_wrong_year (year : Int) (ids : Finset String) (r : RawRow)
    (sd : String) (y : Int) (hd : (r.data.getD ⟨none⟩).showdate = some sd)
    (hlen : ¬ sd.length < 4) (hy : (sd.take 4).toInt? = some y)
    (hyy : ¬ y = year) : bronze_step year ids r = ids := by
  unfold bronze_step
  rw [hd]
  simp [hlen, hy, hyy]

theorem bronze_step_none_id (year : Int) (ids : Finset String) (r : RawRow)
    (sd : String) (hd : (r.data.getD ⟨none⟩).showdate = some sd)
    (hlen : ¬ sd.length < 4) (hy : (sd.take 4).toInt? = some year)
    (hr : r.external_id = none) : bronze_step year ids r = ids := by
  unfold bronze_step
  rw [hd]
  simp [hlen, hy, hr]

theorem bronze_step_insert (year : Int) (ids : Finset String) (r : RawRow)
    (sd : String) (v : JValue) (hd : (r.data.getD ⟨none⟩).showdate = some sd)
    (hlen : ¬ sd.length < 4) (hy : (sd.take 4).toInt? = some year)
    (hr : r.external_id = some v) :
    bronze_step year ids r = insert (pyStr v) ids := by
  unfold bronze_step
  rw [hd]
  simp [hlen, hy, hr]

theorem mem_bronze_step (year : Int) (ids : Finset String) (r : RawRow) (s : String) :
    s ∈ bronze_step year ids r ↔
      s ∈ ids ∨ (bronzeMatches r year ∧
        ∃ v, r.external_id = some v ∧ s = pyStr v) := by
  rcases hd : (r.data.getD ⟨none⟩).showdate with _ | sd
  · rw [bronze_step_no_date year ids r hd]
    constructor
    · exact Or.inl
    · rintro (h | ⟨⟨sd, hsd, _⟩, _⟩)
      · exact h
      · rw [hd] at hsd; cases hsd
  · by_cases hlen : sd.length < 4
    · rw [bronze_step_short year ids r sd hd hlen]
      constructor
      · exact Or.inl
      · rintro (h | ⟨⟨sd2, hsd2, hlen2, _⟩, _⟩)
        · exact h
        · rw [hd] at hsd2; injection hsd2 with he; subst he; omega
    · rcases hy : (sd.take 4).toInt? with _ | y
      · rw [bronze_step_bad_parse year ids r sd hd hlen hy]
        constructor
        · exact Or.inl
        · rintro (h | ⟨⟨sd2, hsd2, hlen2, hp2⟩, _⟩)
          · exact h
          · rw [hd] at hsd2; injection hsd2 with he; subst he
            rw [hy] at hp2; cases hp2
      · by_cases hyy : y = year
        · have hy2 : (sd.take 4).toInt? = some year := by rw [hy, hyy]
          rcases hr : r.external_id with _ | v
          · rw [bronze_step_none_id year ids r sd hd hlen hy2 hr]
            constructor
            · exact Or.inl
            · rintro (h | ⟨_, v2, hv2, _⟩)
              · exact h
              · cases hv2
          · rw [bronze_step_insert year ids r sd v hd hlen hy2 hr]
            rw [Finset.mem_insert]
            constructor
            · rintro (hs | hids)
              · exact Or.inr ⟨⟨sd, hd, by omega, hy2⟩, v, rfl, hs⟩
              · exact Or.inl hids
            · rintro (hids | ⟨_, v2, hv2, hs⟩)
              · exact Or.inr hids
              · injection hv2 with he; subst he; exact Or.inl hs
        · rw [bronze_step_wrong_year year ids r sd y hd hlen hy hyy]
          constructor
          · exact Or.inl
          · rintro (h | ⟨⟨sd2, hsd2, hlen2, hp2⟩, _⟩)
            · exact h
            · rw [hd] at hsd2; injection hsd2 with he; subst he
              rw [hy] at hp2; injection hp2 with he2; exact (hyy he2).elim

theorem mem_bronze_ids_by_year (rows : List RawRow) (year : Int) (s : String) :
    s ∈ bronze_ids_by_year rows year ↔
      ∃ r ∈ rows, bronzeMatches r year ∧
        ∃ v, r.external_id = some v ∧ s = pyStr v := by
  have H : ∀ (ids : Finset String),
      s ∈ rows.foldl (bronze_step year) ids ↔
        s ∈ ids ∨ ∃ r ∈ rows, bronzeMatches r year ∧
          ∃ v, r.external_id = some v ∧ s = pyStr v := by
    induction rows with
    | nil => intro ids; simp
    | cons r rows ih =>
      intro ids
      rw [List.foldl_cons, ih, mem_bronze_step]
      constructor
      · rintro ((hids | hq) | ⟨r2, hr2, hq2⟩)
        · exact Or.inl hids
        · exact Or.inr ⟨r, List.mem_cons_self r rows, hq⟩
        · exact Or.inr ⟨r2, List.mem_cons_of_mem r hr2, hq2⟩
      · rintro (hids | ⟨r2, hr2, hq2⟩)
        · exact Or.inl (Or.inl hids)
        · rcases List.mem_cons.mp hr2 with heq | hmem
          · subst heq; exact Or.inl (Or.inr hq2)
          · exact Or.inr ⟨r2, hmem, hq2⟩
  have h0 := H ∅
  simpa [bronze_ids_by_year] using h0

/-- C9: every id set the scripts build is string-normalized, and rows lacking
an identifier are silently excluded: an element belongs to the distinct-id
set exactly when some row carries that identifier (`str(eid)`), and to the
bronze per-year set exactly when additionally the row's embedded `showdate`
parses (best-effort) to the requested year; rows with `external_id = None`,
missing or short dates, or unparseable years contribute nothing and raise
no error. -/
theorem c9_id_sets_string_normalized :
    (∀ (rows : List IdRow) (s : String),
      s ∈ add_external_ids ∅ rows ↔
        ∃ r ∈ rows, ∃ v, r.external_id = some v ∧ s = pyStr v) ∧
    (∀ (rows : List RawRow) (year : Int) (s : String),
      s ∈ bronze_ids_by_year rows year ↔
        ∃ r ∈ rows, bronzeMatches r year ∧
          ∃ v, r.external_id = some v ∧ s = pyStr v) := by
  constructor
  · intro rows s
    rw [mem_add_external_ids rows ∅ s]
    simp
  · intro rows year s
    exact mem_bronze_ids_by_year rows year s

/-! ### Helper lemma about report samples -/

theorem boundedSortedSample_sort_take (a b : Finset String) :
    boundedSortedSample (((a \ b).sort (· ≤ ·)).take 50) a b := by
  refine ⟨?_, ?_, ?_⟩
  · exact List.Pairwise.sublist (List.take_sublist 50 _)
      (Finset.sort_sorted (· ≤ ·) (a \ b))
  · exact List.length_take_le 50 _
  · intro x hx
    have hx2 : x ∈ (a \ b).sort (· ≤ ·) :=
      (List.take_sublist 50 _).subset hx
    rw [Finset.mem_sort] at hx2
    exact Finset.mem_sdiff.mp hx2

/-- C7: each year's report entry records the exact cardinalities of the three
full id sets (never truncated), and each of the four directional set
differences is persisted as the first at-most-50 elements of the difference
in lexicographic (sorted string) order. -/
theorem c7_report_entry_exact_counts_bounded_samples
    (jsonIds bronzeIds silverIds : Finset String) :
    (report_entry jsonIds bronzeIds silverIds).json_count = jsonIds.card ∧
    (report_entry jsonIds bronzeIds silverIds).bronze_count = bronzeIds.card ∧
    (report_entry jsonIds bronzeIds silverIds).silver_count = silverIds.card ∧
    (report_entry jsonIds bronzeIds silverIds).json_minus_bronze =
      ((jsonIds \ bronzeIds).sort (· ≤ ·)).take 50 ∧
    (report_entry jsonIds bronzeIds silverIds).bronze_minus_json =
      ((bronzeIds \ jsonIds).sort (· ≤ ·)).take 50 ∧
    (report_entry jsonIds bronzeIds silverIds).bronze_minus_silver =
      ((bronzeIds \ silverIds).sort (· ≤ ·)).take 50 ∧
    (report_entry jsonIds bronzeIds silverIds).silver_minus_bronze =
      ((silverIds \ bronzeIds).sort (· ≤ ·)).take 50 ∧
    boundedSortedSample
      (report_entry jsonIds bronzeIds silverIds).json_minus_bronze
      jsonIds bronzeIds ∧
    boundedSortedSample
      (report_entry jsonIds bronzeIds silverIds).bronze_minus_json
      bronzeIds jsonIds ∧
    boundedSortedSample
      (report_entry jsonIds bronzeIds silverIds).bronze_minus_silver
      bronzeIds silverIds ∧
    boundedSortedSample
      (report_entry jsonIds bronzeIds silverIds).silver_minus_bronze
      silverIds bronzeIds :=
  ⟨rfl, rfl, rfl, rfl, rfl, rfl, rfl,
    boundedSortedSample_sort_take jsonIds bronzeIds,
    boundedSortedSample_sort_take bronzeIds jsonIds,
    boundedSortedSample_sort_take bronzeIds silverIds,
    boundedSortedSample_sort_take silverIds bronzeIds⟩
